import Mathlib

/-!
Verification of the meal-planner core (storage module of the repository):
the meal-plan model, the ingredient categorizer, the shopping-list
aggregation engine and the shopping-list store.  Every definition below is
a direct shallow embedding of the corresponding JavaScript function of the
source (`storage.js` section of the bundle and `meal-planner.js`); the
persisted localStorage record for a namespace is modelled as an explicit
`Option`-valued state threaded through the operations (absent record =
`none`).  JavaScript objects used as string-keyed maps are modelled as
insertion-ordered association lists, matching `Object.keys` enumeration
order; `Map` insertion order is modelled the same way.  Numeric amounts
and `Date.now()` timestamps are modelled as `Int`.
-/

/-- Model of `String.prototype.toLowerCase` (ASCII data, as in the
categorizer's fixed keyword set). -/
def jsToLower (s : String) : String := String.mk (s.data.map Char.toLower)

/-- Helper for substring search: does the second list start with the first? -/
def startsWithChars : List Char → List Char → Bool
  | [], _ => true
  | _ :: _, [] => false
  | a :: as, b :: bs => a == b && startsWithChars as bs

/-- Helper for substring search: does `pat` occur contiguously in `s`? -/
def includesChars (pat s : List Char) : Bool :=
  match s with
  | [] => startsWithChars pat []
  | _ :: rest => startsWithChars pat s || includesChars pat rest

/-- Model of `String.prototype.includes`. -/
def strIncludes (s pat : String) : Bool := includesChars pat.data s.data

/-- Model of the JavaScript expression `v || dflt` for string-valued `v`:
`null`/`undefined` and the empty string are falsy and fall through. -/
def jsOrString (v : Option String) (dflt : String) : String :=
  match v with
  | some s => if s == "" then dflt else s
  | none => dflt

/-- Ingredient record as read by the aggregator: `name` (required),
`amount`, `unit`, `aisle` (each possibly absent). -/
structure Ingredient where
  name : String
  amount : Option Int
  unit : Option String
  aisle : Option String
deriving DecidableEq

/-- Recipe record, restricted to the fields the core reads. -/
structure Recipe where
  id : Int
  extendedIngredients : Option (List Ingredient)
deriving DecidableEq

/-- One day's slots: a JavaScript object keyed by meal-type name. -/
abbrev DayPlan := List (String × Option Recipe)

/-- The whole plan: a JavaScript object keyed by day name. -/
abbrev MealPlan := List (String × DayPlan)

/-- Property-read `obj[key]` on a JS object modelled as an association
list: the value at the first matching key, or absent. -/
def objGet {α : Type} (obj : List (String × α)) (key : String) : Option α :=
  (obj.find? (fun p => p.1 == key)).map (fun p => p.2)

/-- Property-write `obj[key] = v`: updates an existing key in place
(object keys are unique), otherwise appends the key at the end
(JS object insertion order). -/
def objSet {α : Type} : List (String × α) → String → α → List (String × α)
  | [], key, v => [(key, v)]
  | p :: rest, key, v =>
      if p.1 == key then (p.1, v) :: rest
      else p :: objSet rest key v

/-- The empty day object literal used by `getMealPlan` and `clearMealPlan`. -/
def emptyDayPlan : DayPlan :=
  [("breakfast", none), ("lunch", none), ("dinner", none)]

/-- The all-empty 21-slot plan literal. -/
def emptyMealPlan : MealPlan :=
  [("monday", emptyDayPlan), ("tuesday", emptyDayPlan),
   ("wednesday", emptyDayPlan), ("thursday", emptyDayPlan),
   ("friday", emptyDayPlan), ("saturday", emptyDayPlan),
   ("sunday", emptyDayPlan)]

/-- Embedding of `getMealPlan`: the stored record, or the empty structure. -/
def getMealPlan (stored : Option MealPlan) : MealPlan :=
  stored.getD emptyMealPlan

/-- Embedding of `addMealToPlan(day, mealType, recipe)`: rejects an absent
day key (`!mealPlan[day]`), otherwise writes the slot and persists. -/
def addMealToPlan (stored : Option MealPlan) (day mealType : String)
    (recipe : Recipe) : Bool × Option MealPlan :=
  let mealPlan := getMealPlan stored
  match objGet mealPlan day with
  | none => (false, stored)
  | some dayPlan =>
      (true, some (objSet mealPlan day (objSet dayPlan mealType (some recipe))))

/-- Embedding of `removeMealFromPlan(day, mealType)`: if the day key is
present, writes `null` into the slot and persists. -/
def removeMealFromPlan (stored : Option MealPlan) (day mealType : String) :
    Bool × Option MealPlan :=
  let mealPlan := getMealPlan stored
  match objGet mealPlan day with
  | some dayPlan =>
      (true, some (objSet mealPlan day (objSet dayPlan mealType none)))
  | none => (false, stored)

/-- Embedding of `clearMealPlan`: persists the all-empty plan, discarding
whatever was stored. -/
def clearMealPlan (_stored : Option MealPlan) : Option MealPlan :=
  some emptyMealPlan

/-- Embedding of `getAllMealsFromPlan`: enumerate days, then meal types,
in object key order, keeping the truthy (non-null) slots. -/
def getAllMealsFromPlan (stored : Option MealPlan) :
    List (String × String × Recipe) :=
  (getMealPlan stored).flatMap (fun d =>
    d.2.filterMap (fun m => m.2.map (fun r => (d.1, m.1, r))))

/-- Embedding of `categorizeIngredient(aisle)`: lowercase the hint
(absent treated as the empty string) and test the six substring rules in
source order, first match wins, else `"other"`. -/
def categorizeIngredient (aisle : Option String) : String :=
  let aisleStr := jsToLower (aisle.getD "")
  if strIncludes aisleStr "produce" || strIncludes aisleStr "vegetable" ||
      strIncludes aisleStr "fruit" then "produce"
  else if strIncludes aisleStr "meat" || strIncludes aisleStr "seafood" ||
      strIncludes aisleStr "poultry" then "meat"
  else if strIncludes aisleStr "dairy" || strIncludes aisleStr "cheese" ||
      strIncludes aisleStr "milk" then "dairy"
  else if strIncludes aisleStr "bread" || strIncludes aisleStr "bakery" ||
      strIncludes aisleStr "grain" then "grains"
  else if strIncludes aisleStr "spice" || strIncludes aisleStr "condiment" ||
      strIncludes aisleStr "oil" then "spices"
  else if strIncludes aisleStr "canned" || strIncludes aisleStr "jar" then
    "pantry"
  else "other"

/-- The aggregation output shape built by
`generateShoppingListFromMealPlan` for a first-seen ingredient name. -/
structure AggregatedIngredient where
  name : String
  category : String
  amount : Int
  unit : String
  checked : Bool
deriving DecidableEq

/-- The JavaScript expression `ingredient.amount || 0`. -/
def jsAmount (ingredient : Ingredient) : Int := ingredient.amount.getD 0

/-- The entry created when a merge key is first seen (the `else` branch of
the aggregator's loop body). -/
def newEntry (ingredient : Ingredient) : AggregatedIngredient :=
  { name := ingredient.name,
    category := categorizeIngredient
      (some (jsOrString ingredient.aisle ingredient.name)),
    amount := jsAmount ingredient,
    unit := jsOrString ingredient.unit "",
    checked := false }

/-- One iteration of the aggregator's inner loop: merge into the existing
entry with the same (exact) name, adding only the amount, or append a new
entry.  The `Map` is modelled as its insertion-ordered value list. -/
def insertIngredient (acc : List AggregatedIngredient)
    (ingredient : Ingredient) : List AggregatedIngredient :=
  if acc.any (fun e => e.name == ingredient.name) then
    acc.map (fun e =>
      if e.name == ingredient.name then
        { e with amount := e.amount + jsAmount ingredient }
      else e)
  else acc ++ [newEntry ingredient]

/-- Embedding of `generateShoppingListFromMealPlan`: walk the populated
slots, skip recipes without an `extendedIngredients` list, and fold every
ingredient into the merge map; return the values in insertion order. -/
def generateShoppingListFromMealPlan (stored : Option MealPlan) :
    List AggregatedIngredient :=
  (getAllMealsFromPlan stored).foldl
    (fun acc meal =>
      match meal.2.2.extendedIngredients with
      | some ings => ings.foldl insertIngredient acc
      | none => acc)
    []

/-- Stored shopping-list item exactly as `addToShoppingList` constructs
it: note there is no amount and no unit field. -/
structure ShoppingItem where
  id : Int
  name : String
  category : String
  checked : Bool
  addedAt : Int
deriving DecidableEq

/-- The persisted shopping-list record. -/
abbrev ShoppingList := List ShoppingItem

/-- Embedding of `addToShoppingList(item)`: case-insensitive duplicate
check on the name, then append a fresh item built from the argument's
`name` and `category` only, with `id = addedAt = Date.now()` (the `now`
parameter) and `checked = false`. -/
def addToShoppingList (list : ShoppingList) (name : String)
    (category : Option String) (now : Int) : Bool × ShoppingList :=
  if list.any (fun i => jsToLower i.name == jsToLower name) then
    (false, list)
  else
    (true, list ++ [{ id := now, name := name,
                      category := jsOrString category "other",
                      checked := false, addedAt := now }])

/-- Embedding of `removeFromShoppingList(itemId)`: keep the items whose
id differs. -/
def removeFromShoppingList (list : ShoppingList) (itemId : Int) :
    ShoppingList :=
  list.filter (fun item => !(item.id == itemId))

/-- Toggle of the first item with the given id (the object returned by
`list.find`, mutated in place). -/
def toggleFirst (list : ShoppingList) (itemId : Int) : ShoppingList :=
  match list with
  | [] => []
  | i :: rest =>
      if i.id == itemId then { i with checked := !i.checked } :: rest
      else i :: toggleFirst rest itemId

/-- Embedding of `toggleShoppingItem(itemId)`: flip `checked` on the first
matching item and persist, reporting whether a match was found. -/
def toggleShoppingItem (list : ShoppingList) (itemId : Int) :
    Bool × ShoppingList :=
  if list.any (fun i => i.id == itemId) then (true, toggleFirst list itemId)
  else (false, list)

/-- Embedding of the commit loop of `generateShoppingList` (main page):
after `clearShoppingList()`, each generated item is pushed through
`addToShoppingList`, which reads only its `name` and `category`. -/
def commitGeneratedItems (items : List AggregatedIngredient) (now : Int) :
    ShoppingList :=
  items.foldl
    (fun l item => (addToShoppingList l item.name (some item.category) now).2)
    []

/-- Day names in the fixed traversal order used by `getMealPlan`'s
literal and by `generateAutoMealPlan`. -/
def days : List String :=
  ["monday", "tuesday", "wednesday", "thursday", "friday", "saturday",
   "sunday"]

/-- Meal-slot names in the fixed traversal order. -/
def mealTypes : List String := ["breakfast", "lunch", "dinner"]

/-- The 21 slots in day-major, meal-minor traversal order. -/
def slotList : List (String × String) :=
  days.flatMap (fun d => mealTypes.map (fun m => (d, m)))

/-- The slot-filling loop of `generateAutoMealPlan`: for each slot in
traversal order, if `recipes[recipeIndex]` is present, add it to the plan
and advance the index. -/
def fillSlots (recipes : List Recipe) :
    List (String × String) → Option MealPlan × Nat → Option MealPlan × Nat
  | [], acc => acc
  | (day, mealType) :: rest, (st, idx) =>
      match recipes[idx]? with
      | some r => fillSlots recipes rest ((addMealToPlan st day mealType r).2, idx + 1)
      | none => fillSlots recipes rest (st, idx)

/-- Embedding of the storage effect of `generateAutoMealPlan` (from
`meal-planner.js`): clear the stored plan, then fill slots in traversal
order from the fetched recipe sequence. -/
def generateAutoMealPlan (stored : Option MealPlan) (recipes : List Recipe) :
    Option MealPlan :=
  (fillSlots recipes slotList (clearMealPlan stored, 0)).1

/-- Read of one slot of a plan value: `plan[day][mealType]` as a
two-level optional (outer: slot key present, inner: slot non-null). -/
def planSlot (p : MealPlan) (day mealType : String) : Option (Option Recipe) :=
  (objGet p day).bind (fun dp => objGet dp mealType)

/-- Well-formedness of a plan value: exactly the 7 day keys in order, each
day holding exactly the 3 meal-type keys in order.  This is the shape of
`emptyMealPlan`; each slot then holds an `Option Recipe`, i.e. it is empty
or holds exactly one recipe. -/
def wellFormedPlan (p : MealPlan) : Bool :=
  p.map (fun d => d.1) == days &&
    p.all (fun d => d.2.map (fun m => m.1) == mealTypes)

/-- Total number of slot keys in a plan value. -/
def slotCount (p : MealPlan) : Nat :=
  (p.map (fun d => d.2.length)).sum

/-- The 21 slot values of a plan in key order, day-major, meal-minor for a
well-formed plan. -/
def flattenSlots (p : MealPlan) : List (Option Recipe) :=
  p.flatMap (fun d => d.2.map (fun m => m.2))

/-- The ingredient stream the aggregator folds over: for each populated
slot in `getAllMealsFromPlan` order, the recipe's ingredient list (absent
list contributes nothing). -/
def planIngredients (stored : Option MealPlan) : List Ingredient :=
  (getAllMealsFromPlan stored).flatMap
    (fun meal => meal.2.2.extendedIngredients.getD [])

/-- Sum of `amount || 0` over the ingredients with exactly this name. -/
def amountOf (l : List Ingredient) (n : String) : Int :=
  ((l.filter (fun i => i.name == n)).map jsAmount).sum

/-- The first ingredient with exactly this name. -/
def firstWith (l : List Ingredient) (n : String) : Option Ingredient :=
  l.find? (fun i => i.name == n)

/-- The first aggregated entry with exactly this name. -/
def entryFor (xs : List AggregatedIngredient) (n : String) :
    Option AggregatedIngredient :=
  xs.find? (fun e => e.name == n)

/-- Name-level image of the aggregator's fold: append each name unless it
is already present. -/
def addNames (ns : List String) (ms : List String) : List String :=
  ms.foldl (fun a n => if a.any (fun m => m == n) then a else a ++ [n]) ns

/-- Spec-side definition of first-encountered order (§4.2 step 5): keep
the first occurrence of each name, in stream order. -/
def firstOccurrences : List String → List String
  | [] => []
  | n :: rest => n :: firstOccurrences (rest.filter (fun m => !(m == n)))
termination_by l => l.length
decreasing_by
  simp only [List.length_cons]
  exact Nat.lt_succ_of_le (List.length_filter_le _ _)

/-- Ingredient contribution of one slot value: a populated slot yields the
recipe's listed ingredients (or none if the recipe has no list); an empty
slot yields nothing. -/
def optIngredients : Option Recipe → List Ingredient
  | some r => r.extendedIngredients.getD []
  | none => []

/-- Ingredient contribution of one slot read: a missing slot key yields
nothing, otherwise the slot value's contribution. -/
def slotIngredients : Option (Option Recipe) → List Ingredient
  | some v => optIngredients v
  | none => []

/-- Spec-side definition of the aggregation traversal (§4.2 steps 1-2 and
5): visit the 21 slots day-major (monday to sunday), meal-minor
(breakfast, lunch, dinner), skip empty slots and recipes without an
ingredient list, and keep each recipe's ingredients in listed order. -/
def traversalIngredients (p : MealPlan) : List Ingredient :=
  slotList.flatMap (fun s => slotIngredients (planSlot p s.1 s.2))

/-- Concrete recipes for the merge scenario of §8.2: two recipes with a
lowercase `"flour"` ingredient and one with `"Flour"`. -/
def flourRecipeA : Recipe :=
  { id := 1, extendedIngredients := some
      [{ name := "flour", amount := some 200, unit := some "g",
         aisle := some "Baking" }] }

/-- Second recipe of the merge scenario (different unit and aisle, so
first-seen-wins is observable). -/
def flourRecipeB : Recipe :=
  { id := 2, extendedIngredients := some
      [{ name := "flour", amount := some 150, unit := some "cups",
         aisle := some "Milk, Eggs, Other Dairy" }] }

/-- Third recipe of the merge scenario: `"Flour"` differs in case only. -/
def flourRecipeC : Recipe :=
  { id := 3, extendedIngredients := some
      [{ name := "Flour", amount := some 100, unit := some "g",
         aisle := some "Baking" }] }

/-- A plan holding the three scenario recipes in monday's three slots. -/
def flourPlan : Option MealPlan :=
  (addMealToPlan
    (addMealToPlan
      (addMealToPlan none "monday" "breakfast" flourRecipeA).2
      "monday" "lunch" flourRecipeB).2
    "monday" "dinner" flourRecipeC).2

/-- C2: categorizeIngredient is a pure total function; it lowercases its
input (absent treated as empty), tries the six substring rules in the
fixed order produce, meat, dairy, grains, spices, pantry, returns the
first match and otherwise `"other"`.  Checked on the spec's test points:
`"Fresh Produce"` is produce, `"Seafood Oil"` is meat (the meat rule
precedes the oil rule), the empty and absent hints are other, `"CHEESE"`
is dairy (case-insensitive), plus one hit for each remaining rule. -/
theorem categorizeIngredient_props :
    categorizeIngredient (some "Fresh Produce") = "produce" ∧
    categorizeIngredient (some "Seafood Oil") = "meat" ∧
    categorizeIngredient (some "") = "other" ∧
    categorizeIngredient none = "other" ∧
    categorizeIngredient (some "CHEESE") = "dairy" ∧
    categorizeIngredient (some "Bread & Bakery") = "grains" ∧
    categorizeIngredient (some "Oil, Vinegar, Salad Dressing") = "spices" ∧
    categorizeIngredient (some "Canned and Jarred") = "pantry" := by
  decide

lemma objGet_objSet_self {α : Type} (o : List (String × α)) (k : String)
    (v : α) : objGet (objSet o k v) k = some v := by
  induction o with
  | nil => simp [objGet, objSet]
  | cons p rest ih =>
      cases hp : p.1 == k with
      | true => simp [objSet, hp, objGet, List.find?_cons]
      | false =>
          simp only [objSet, hp, Bool.false_eq_true, if_false]
          simpa [objGet, List.find?_cons, hp] using ih

lemma objGet_objSet_ne {α : Type} (o : List (String × α)) (k k' : String)
    (v : α) (h : k' ≠ k) : objGet (objSet o k v) k' = objGet o k' := by
  induction o with
  | nil =>
      have : (k == k') = false := by
        simpa using fun he => h he.symm
      simp [objGet, objSet, List.find?_cons, this]
  | cons p rest ih =>
      cases hp : p.1 == k with
      | true =>
          have hpk : p.1 = k := by simpa using hp
          have : (p.1 == k') = false := by
            simp [hpk]
            exact fun he => h he.symm
          simp [objSet, hp, objGet, List.find?_cons, this]
      | false =>
          simp only [objSet, hp, Bool.false_eq_true, if_false]
          cases hpk : p.1 == k' with
          | true => simp [objGet, List.find?_cons, hpk]
          | false => simpa [objGet, List.find?_cons, hpk] using ih

lemma keys_objSet_of_mem {α : Type} (o : List (String × α)) (k : String)
    (v : α) (h : k ∈ o.map (fun p => p.1)) :
    (objSet o k v).map (fun p => p.1) = o.map (fun p => p.1) := by
  induction o with
  | nil => simp at h
  | cons p rest ih =>
      cases hp : p.1 == k with
      | true => simp [objSet, hp]
      | false =>
          have hpk : p.1 ≠ k := by simpa using hp
          have hk : k ∈ rest.map (fun p => p.1) := by
            rcases (by simpa using h) with h' | h'
            · exact absurd h'.symm hpk
            · simpa using h'
          simp only [objSet, hp, Bool.false_eq_true, if_false]
          simp [ih hk]

lemma mem_objSet {α : Type} (o : List (String × α)) (k : String) (v : α)
    (x : String × α) (hx : x ∈ objSet o k v) : x.2 = v ∨ x ∈ o := by
  induction o with
  | nil =>
      simp [objSet] at hx
      simp [hx]
  | cons p rest ih =>
      cases hp : p.1 == k with
      | true =>
          simp [objSet, hp] at hx
          rcases hx with hx | hx
          · left; simp [hx]
          · right; simp [hx]
      | false =>
          simp only [objSet, hp, Bool.false_eq_true, if_false] at hx
          rcases (by simpa using hx) with hx' | hx'
          · right; simp [hx']
          · rcases ih hx' with h' | h'
            · exact Or.inl h'
            · right; simp [h']

lemma objGet_isSome_of_mem_keys {α : Type} (o : List (String × α))
    (k : String) (h : k ∈ o.map (fun p => p.1)) :
    ∃ w, objGet o k = some w := by
  induction o with
  | nil => simp at h
  | cons p rest ih =>
      cases hp : p.1 == k with
      | true => exact ⟨p.2, by simp [objGet, List.find?_cons, hp]⟩
      | false =>
          have hpk : p.1 ≠ k := by simpa using hp
          have hk : k ∈ rest.map (fun p => p.1) := by
            rcases (by simpa using h) with h' | h'
            · exact absurd h'.symm hpk
            · simpa using h'
          obtain ⟨w, hw⟩ := ih hk
          exact ⟨w, by simpa [objGet, List.find?_cons, hp] using hw⟩

lemma objGet_eq_none_of_not_mem {α : Type} (o : List (String × α))
    (k : String) (h : k ∉ o.map (fun p => p.1)) : objGet o k = none := by
  induction o with
  | nil => simp [objGet]
  | cons p rest ih =>
      have hpk : p.1 ≠ k := fun he => h (by simp [he])
      have hp : (p.1 == k) = false := by simpa using hpk
      have hk : k ∉ rest.map (fun p => p.1) := fun hm => h (by simp [hm])
      simpa [objGet, List.find?_cons, hp] using ih hk

lemma objGet_mem {α : Type} (o : List (String × α)) (k : String) (w : α)
    (h : objGet o k = some w) : (k, w) ∈ o := by
  induction o with
  | nil => simp [objGet] at h
  | cons p rest ih =>
      cases hp : p.1 == k with
      | true =>
          have hpk : p.1 = k := by simpa using hp
          simp [objGet, List.find?_cons, hp] at h
          exact List.mem_cons.2 (Or.inl (by cases p; simp_all))
      | false =>
          simp [objGet, List.find?_cons, hp] at h
          exact List.mem_cons_of_mem _ (ih (by simpa [objGet] using h))

lemma wellFormedPlan_iff (p : MealPlan) :
    wellFormedPlan p = true ↔
      (p.map (fun d => d.1) = days ∧
        ∀ d ∈ p, d.2.map (fun m => m.1) = mealTypes) := by
  simp [wellFormedPlan, List.all_eq_true]

lemma wf_objSet_slot (p : MealPlan) (day mealType : String) (dp : DayPlan)
    (v : Option Recipe) (hwf : wellFormedPlan p = true)
    (hdp : objGet p day = some dp) (hm : mealType ∈ mealTypes) :
    wellFormedPlan (objSet p day (objSet dp mealType v)) = true := by
  obtain ⟨hk, hv⟩ := (wellFormedPlan_iff p).1 hwf
  have hmemp : (day, dp) ∈ p := objGet_mem p day dp hdp
  have hdayk : day ∈ p.map (fun d => d.1) := by
    exact List.mem_map.2 ⟨(day, dp), hmemp, rfl⟩
  have hdpk : dp.map (fun m => m.1) = mealTypes := hv (day, dp) hmemp
  have hmk : mealType ∈ dp.map (fun m => m.1) := by rw [hdpk]; exact hm
  refine (wellFormedPlan_iff _).2 ⟨?_, ?_⟩
  · rw [keys_objSet_of_mem p day _ hdayk]; exact hk
  · intro d hd
    rcases mem_objSet p day _ d hd with h2 | h2
    · rw [h2, keys_objSet_of_mem dp mealType v hmk]; exact hdpk
    · exact hv d h2

lemma sum_of_all_eq (l : List Nat) (c : Nat) (h : ∀ x ∈ l, x = c) :
    l.sum = l.length * c := by
  induction l with
  | nil => simp
  | cons a rest ih =>
      have ha : a = c := h a (by simp)
      have : rest.sum = rest.length * c := ih (fun x hx => h x (by simp [hx]))
      simp [ha, this, Nat.succ_mul, Nat.add_comm]

lemma slotCount_of_wf (p : MealPlan) (h : wellFormedPlan p = true) :
    slotCount p = 21 := by
  obtain ⟨hk, hv⟩ := (wellFormedPlan_iff p).1 h
  have hlen : ∀ x ∈ p.map (fun d => d.2.length), x = 3 := by
    intro x hx
    obtain ⟨d, hd, hdx⟩ := List.mem_map.1 hx
    have h3 : d.2.map (fun m => m.1) = mealTypes := hv d hd
    have : d.2.length = mealTypes.length := by
      rw [← h3]; simp
    simpa [this] using hdx.symm
  have hplen : p.length = 7 := by
    have := congrArg List.length hk
    simpa using this
  have := sum_of_all_eq (p.map (fun d => d.2.length)) 3 hlen
  simp [slotCount, this, hplen]

lemma addMealToPlan_preserves_wf (stored : Option MealPlan)
    (day mealType : String) (r : Recipe)
    (hwf : wellFormedPlan (getMealPlan stored) = true)
    (hm : mealType ∈ mealTypes) :
    wellFormedPlan (getMealPlan (addMealToPlan stored day mealType r).2)
      = true := by
  cases hdp : objGet (getMealPlan stored) day with
  | none =>
      have h2 : (addMealToPlan stored day mealType r).2 = stored := by
        simp [addMealToPlan, hdp]
      rw [h2]; exact hwf
  | some dp =>
      have h2 : (addMealToPlan stored day mealType r).2 =
          some (objSet (getMealPlan stored) day
            (objSet dp mealType (some r))) := by
        simp [addMealToPlan, hdp]
      rw [h2]
      simpa [getMealPlan] using
        wf_objSet_slot (getMealPlan stored) day mealType dp (some r) hwf hdp hm

lemma removeMealFromPlan_preserves_wf (stored : Option MealPlan)
    (day mealType : String)
    (hwf : wellFormedPlan (getMealPlan stored) = true)
    (hm : mealType ∈ mealTypes) :
    wellFormedPlan (getMealPlan (removeMealFromPlan stored day mealType).2)
      = true := by
  cases hdp : objGet (getMealPlan stored) day with
  | none =>
      have h2 : (removeMealFromPlan stored day mealType).2 = stored := by
        simp [removeMealFromPlan, hdp]
      rw [h2]; exact hwf
  | some dp =>
      have h2 : (removeMealFromPlan stored day mealType).2 =
          some (objSet (getMealPlan stored) day (objSet dp mealType none)) := by
        simp [removeMealFromPlan, hdp]
      rw [h2]
      simpa [getMealPlan] using
        wf_objSet_slot (getMealPlan stored) day mealType dp none hwf hdp hm

lemma fillSlots_preserves_wf (recipes : List Recipe) :
    ∀ (slots : List (String × String)), (∀ s ∈ slots, s.2 ∈ mealTypes) →
    ∀ (st : Option MealPlan) (idx : Nat),
      wellFormedPlan (getMealPlan st) = true →
      wellFormedPlan (getMealPlan (fillSlots recipes slots (st, idx)).1)
        = true := by
  intro slots
  induction slots with
  | nil => intro _ st idx h; simpa [fillSlots] using h
  | cons s rest ih =>
      intro hs st idx h
      obtain ⟨d, m⟩ := s
      have hm : m ∈ mealTypes := hs (d, m) (by simp)
      have hrest : ∀ x ∈ rest, x.2 ∈ mealTypes :=
        fun x hx => hs x (by simp [hx])
      cases hidx : recipes[idx]? with
      | some r =>
          simpa [fillSlots, hidx] using
            ih hrest _ (idx + 1)
              (addMealToPlan_preserves_wf st d m r h hm)
      | none => simpa [fillSlots, hidx] using ih hrest st idx h

/-- C4 (amended): starting from the materialized empty plan and under the
model's operations called with one of the three fixed meal-slot names,
every reachable plan has exactly the 7 fixed day keys each holding
exactly the 3 fixed meal-slot keys — 21 slots in total — and each slot is
an `Option Recipe`, i.e. empty or holding exactly one recipe.  (Calling
`addMealToPlan`/`removeMealFromPlan` with a nonstandard meal-type string
violates this: see the counterexample.) -/
theorem mealplan_wf_preservation :
    wellFormedPlan (getMealPlan none) = true ∧
    (∀ stored, wellFormedPlan (getMealPlan stored) = true →
      slotCount (getMealPlan stored) = 21) ∧
    (∀ stored day mealType r, wellFormedPlan (getMealPlan stored) = true →
      mealType ∈ mealTypes →
      wellFormedPlan (getMealPlan (addMealToPlan stored day mealType r).2)
        = true) ∧
    (∀ stored day mealType, wellFormedPlan (getMealPlan stored) = true →
      mealType ∈ mealTypes →
      wellFormedPlan (getMealPlan (removeMealFromPlan stored day mealType).2)
        = true) ∧
    (∀ stored, wellFormedPlan (getMealPlan (clearMealPlan stored)) = true) ∧
    (∀ stored recipes,
      wellFormedPlan (getMealPlan (generateAutoMealPlan stored recipes))
        = true) := by
  refine ⟨by decide, fun stored h => slotCount_of_wf _ h,
    fun stored day mealType r h hm =>
      addMealToPlan_preserves_wf stored day mealType r h hm,
    fun stored day mealType h hm =>
      removeMealFromPlan_preserves_wf stored day mealType h hm,
    fun stored =>
      (by decide : wellFormedPlan (getMealPlan (some emptyMealPlan)) = true),
    ?_⟩
  intro stored recipes
  exact fillSlots_preserves_wf recipes slotList (by decide)
    (clearMealPlan stored) 0
    (by decide : wellFormedPlan (getMealPlan (some emptyMealPlan)) = true)

/-- C4 witness: the invariant theorem applied at concrete inputs. -/
theorem mealplan_wf_witness :
    slotCount (getMealPlan none) = 21 ∧
    wellFormedPlan
      (getMealPlan (addMealToPlan none "monday" "lunch"
        { id := 1, extendedIngredients := none }).2) = true :=
  ⟨mealplan_wf_preservation.2.1 none (by decide),
   mealplan_wf_preservation.2.2.1 none "monday" "lunch"
     { id := 1, extendedIngredients := none } (by decide) (by decide)⟩

/-- C4 counterexample: the claim as stated is false — `addMealToPlan` does
not validate the meal-type name, so setting slot `"snack"` on a valid day
creates a 22nd slot key. -/
theorem mealplan_extra_slot_counterexample :
    slotCount (getMealPlan (addMealToPlan none "monday" "snack"
      { id := 1, extendedIngredients := none }).2) = 22 ∧
    ((objGet (getMealPlan (addMealToPlan none "monday" "snack"
        { id := 1, extendedIngredients := none }).2) "monday").getD
      []).map (fun m => m.1) = ["breakfast", "lunch", "dinner", "snack"] := by
  decide

lemma planSlot_objSet_frame (p : MealPlan) (day mealType d m : String)
    (dp : DayPlan) (v : Option Recipe) (hdp : objGet p day = some dp)
    (h : ¬(d = day ∧ m = mealType)) :
    planSlot (objSet p day (objSet dp mealType v)) d m = planSlot p d m := by
  by_cases hd : d = day
  · subst hd
    have hm : m ≠ mealType := fun hm => h ⟨rfl, hm⟩
    simp [planSlot, objGet_objSet_self, hdp, objGet_objSet_ne dp mealType m v hm]
  · simp [planSlot, objGet_objSet_ne p day d _ hd]

/-- C7: with a day name that is not a key of the plan object — i.e. not
one of the 7 valid day names, given a well-formed plan — `addMealToPlan`
reports failure and performs no mutation; with a valid day it reports
success, overwrites the slot unconditionally with the recipe, and
persists the updated plan. -/
theorem setMeal_validation (stored : Option MealPlan) (day mealType : String)
    (r : Recipe) (hwf : wellFormedPlan (getMealPlan stored) = true) :
    (day ∉ days → addMealToPlan stored day mealType r = (false, stored)) ∧
    (day ∈ days →
      (addMealToPlan stored day mealType r).1 = true ∧
      ∃ p', (addMealToPlan stored day mealType r).2 = some p' ∧
        planSlot p' day mealType = some (some r)) := by
  obtain ⟨hk, hv⟩ := (wellFormedPlan_iff _).1 hwf
  constructor
  · intro hd
    have hnone : objGet (getMealPlan stored) day = none :=
      objGet_eq_none_of_not_mem _ day (by rw [hk]; exact hd)
    simp [addMealToPlan, hnone]
  · intro hd
    obtain ⟨dp, hdp⟩ :=
      objGet_isSome_of_mem_keys (getMealPlan stored) day (by rw [hk]; exact hd)
    refine ⟨by simp [addMealToPlan, hdp], ?_⟩
    refine ⟨objSet (getMealPlan stored) day (objSet dp mealType (some r)),
      by simp [addMealToPlan, hdp], ?_⟩
    simp [planSlot, objGet_objSet_self]

/-- C7 witness: the invalid day `"funday"` is rejected without mutation;
the valid day `"tuesday"` succeeds. -/
theorem setMeal_validation_witness :
    addMealToPlan none "funday" "lunch"
      { id := 1, extendedIngredients := none } = (false, none) ∧
    (addMealToPlan none "tuesday" "lunch"
      { id := 1, extendedIngredients := none }).1 = true :=
  ⟨(setMeal_validation none "funday" "lunch"
      { id := 1, extendedIngredients := none } (by decide)).1 (by decide),
   ((setMeal_validation none "tuesday" "lunch"
      { id := 1, extendedIngredients := none } (by decide)).2 (by decide)).1⟩

/-- C8: after `addMealToPlan('tuesday','lunch', R)` the read-back plan
holds R in the tuesday-lunch slot; after a subsequent
`removeMealFromPlan('tuesday','lunch')` that slot reads back empty; in
both cases every other slot reads back exactly as before the operation. -/
theorem tuesdayLunch_roundtrip (stored : Option MealPlan) (r : Recipe)
    (hk : (getMealPlan stored).map (fun d => d.1) = days) :
    planSlot (getMealPlan (addMealToPlan stored "tuesday" "lunch" r).2)
      "tuesday" "lunch" = some (some r) ∧
    (∀ d m, ¬(d = "tuesday" ∧ m = "lunch") →
      planSlot (getMealPlan (addMealToPlan stored "tuesday" "lunch" r).2) d m
        = planSlot (getMealPlan stored) d m) ∧
    planSlot (getMealPlan (removeMealFromPlan
        (addMealToPlan stored "tuesday" "lunch" r).2 "tuesday" "lunch").2)
      "tuesday" "lunch" = some none ∧
    (∀ d m, ¬(d = "tuesday" ∧ m = "lunch") →
      planSlot (getMealPlan (removeMealFromPlan
          (addMealToPlan stored "tuesday" "lunch" r).2 "tuesday" "lunch").2)
        d m
        = planSlot (getMealPlan (addMealToPlan stored "tuesday" "lunch" r).2)
            d m) := by
  obtain ⟨dp, hdp⟩ := objGet_isSome_of_mem_keys (getMealPlan stored)
    "tuesday" (by rw [hk]; decide)
  have hadd : (addMealToPlan stored "tuesday" "lunch" r).2 =
      some (objSet (getMealPlan stored) "tuesday"
        (objSet dp "lunch" (some r))) := by
    simp [addMealToPlan, hdp]
  have hdp1 : objGet (getMealPlan (addMealToPlan stored "tuesday" "lunch" r).2)
      "tuesday" = some (objSet dp "lunch" (some r)) := by
    rw [hadd]; simp [getMealPlan, objGet_objSet_self]
  have hrem : (removeMealFromPlan
      (addMealToPlan stored "tuesday" "lunch" r).2 "tuesday" "lunch").2 =
      some (objSet (getMealPlan (addMealToPlan stored "tuesday" "lunch" r).2)
        "tuesday" (objSet (objSet dp "lunch" (some r)) "lunch" none)) := by
    simp [removeMealFromPlan, hdp1]
  refine ⟨?_, ?_, ?_, ?_⟩
  · rw [hadd]; simp [getMealPlan, planSlot, objGet_objSet_self]
  · intro d m h
    rw [hadd]
    simpa [getMealPlan] using
      planSlot_objSet_frame (getMealPlan stored) "tuesday" "lunch" d m dp
        (some r) hdp h
  · rw [hrem]; simp [getMealPlan, planSlot, objGet_objSet_self]
  · intro d m h
    rw [hrem]
    simpa [getMealPlan] using
      planSlot_objSet_frame
        (getMealPlan (addMealToPlan stored "tuesday" "lunch" r).2)
        "tuesday" "lunch" d m (objSet dp "lunch" (some r)) none hdp1 h

/-- C8 witness: the round-trip theorem applied to the empty store and a
concrete recipe, read back at the set slot and at another slot. -/
theorem tuesdayLunch_roundtrip_witness :
    planSlot (getMealPlan (addMealToPlan none "tuesday" "lunch"
        { id := 1, extendedIngredients := none }).2) "tuesday" "lunch"
      = some (some { id := 1, extendedIngredients := none }) ∧
    planSlot (getMealPlan (addMealToPlan none "tuesday" "lunch"
        { id := 1, extendedIngredients := none }).2) "monday" "dinner"
      = planSlot (getMealPlan none) "monday" "dinner" :=
  ⟨(tuesdayLunch_roundtrip none { id := 1, extendedIngredients := none }
      (by decide)).1,
   (tuesdayLunch_roundtrip none { id := 1, extendedIngredients := none }
      (by decide)).2.1 "monday" "dinner" (by decide)⟩

lemma planSlot_addMeal_self (stored : Option MealPlan) (day mt : String)
    (r : Recipe) (dp : DayPlan)
    (hdp : objGet (getMealPlan stored) day = some dp) :
    planSlot (getMealPlan (addMealToPlan stored day mt r).2) day mt
      = some (some r) := by
  have h2 : (addMealToPlan stored day mt r).2 =
      some (objSet (getMealPlan stored) day (objSet dp mt (some r))) := by
    simp [addMealToPlan, hdp]
  rw [h2]
  simp [getMealPlan, planSlot, objGet_objSet_self]

lemma planSlot_addMeal_frame (stored : Option MealPlan) (day mt : String)
    (r : Recipe) (d m : String) (h : ¬(d = day ∧ m = mt)) :
    planSlot (getMealPlan (addMealToPlan stored day mt r).2) d m
      = planSlot (getMealPlan stored) d m := by
  cases hdp : objGet (getMealPlan stored) day with
  | none =>
      have h2 : (addMealToPlan stored day mt r).2 = stored := by
        simp [addMealToPlan, hdp]
      rw [h2]
  | some dp =>
      have h2 : (addMealToPlan stored day mt r).2 =
          some (objSet (getMealPlan stored) day (objSet dp mt (some r))) := by
        simp [addMealToPlan, hdp]
      rw [h2]
      simpa [getMealPlan] using
        planSlot_objSet_frame (getMealPlan stored) day mt d m dp (some r) hdp h

lemma keys_addMeal (stored : Option MealPlan) (day mt : String) (r : Recipe) :
    (getMealPlan (addMealToPlan stored day mt r).2).map (fun x => x.1)
      = (getMealPlan stored).map (fun x => x.1) := by
  cases hdp : objGet (getMealPlan stored) day with
  | none =>
      have h2 : (addMealToPlan stored day mt r).2 = stored := by
        simp [addMealToPlan, hdp]
      rw [h2]
  | some dp =>
      have h2 : (addMealToPlan stored day mt r).2 =
          some (objSet (getMealPlan stored) day (objSet dp mt (some r))) := by
        simp [addMealToPlan, hdp]
      rw [h2]
      have hmem : day ∈ (getMealPlan stored).map (fun x => x.1) :=
        List.mem_map.2 ⟨(day, dp), objGet_mem _ day dp hdp, rfl⟩
      simpa [getMealPlan] using
        keys_objSet_of_mem (getMealPlan stored) day _ hmem

lemma fillSlots_stuck (recipes : List Recipe) (idx : Nat)
    (h : recipes[idx]? = none) :
    ∀ (slots : List (String × String)) (st : Option MealPlan),
      fillSlots recipes slots (st, idx) = (st, idx) := by
  intro slots
  induction slots with
  | nil => intro st; rfl
  | cons s rest ih =>
      intro st
      obtain ⟨d, m⟩ := s
      simp [fillSlots, h, ih st]

lemma fillSlots_frame (recipes : List Recipe) :
    ∀ (slots : List (String × String)) (st : Option MealPlan) (idx : Nat)
      (d m : String), (∀ s ∈ slots, ¬(d = s.1 ∧ m = s.2)) →
      planSlot (getMealPlan (fillSlots recipes slots (st, idx)).1) d m
        = planSlot (getMealPlan st) d m := by
  intro slots
  induction slots with
  | nil => intro st idx d m _; rfl
  | cons s rest ih =>
      intro st idx d m hs
      obtain ⟨d', m'⟩ := s
      have hhead : ¬(d = d' ∧ m = m') := hs (d', m') (by simp)
      have hrest : ∀ x ∈ rest, ¬(d = x.1 ∧ m = x.2) :=
        fun x hx => hs x (by simp [hx])
      cases hq : recipes[idx]? with
      | some r =>
          have hstep : fillSlots recipes ((d', m') :: rest) (st, idx) =
              fillSlots recipes rest ((addMealToPlan st d' m' r).2, idx + 1) := by
            simp [fillSlots, hq]
          rw [hstep, ih _ _ d m hrest,
            planSlot_addMeal_frame st d' m' r d m hhead]
      | none =>
          have hstep : fillSlots recipes ((d', m') :: rest) (st, idx) =
              fillSlots recipes rest (st, idx) := by
            simp [fillSlots, hq]
          rw [hstep, ih _ _ d m hrest]

lemma fillSlots_spec (recipes : List Recipe) :
    ∀ (slots : List (String × String)) (st : Option MealPlan) (idx : Nat),
      slots.Nodup →
      (∀ s ∈ slots, s.1 ∈ days) →
      (getMealPlan st).map (fun x => x.1) = days →
      (∀ s ∈ slots, planSlot (getMealPlan st) s.1 s.2 = some none) →
      ∀ (j : Nat) (hj : j < slots.length),
        planSlot (getMealPlan (fillSlots recipes slots (st, idx)).1)
          (slots.get ⟨j, hj⟩).1 (slots.get ⟨j, hj⟩).2
          = some (recipes[idx + j]?) := by
  intro slots
  induction slots with
  | nil => intro st idx _ _ _ _ j hj; exact absurd hj (by simp)
  | cons s rest ih =>
      intro st idx hnd hdays hkeys hempty j hj
      obtain ⟨d, m⟩ := s
      have hmem : (d, m) ∉ rest := (List.nodup_cons.1 hnd).1
      have hndr : rest.Nodup := (List.nodup_cons.1 hnd).2
      have hneq : ∀ x ∈ rest, ¬(d = x.1 ∧ m = x.2) := by
        intro x hx hc
        exact hmem (by
          have : x = (d, m) := by
            cases x; simp at hc; simp [hc.1.symm, hc.2.symm]
          rwa [this] at hx)
      cases hq : recipes[idx]? with
      | none =>
          have hstep : fillSlots recipes ((d, m) :: rest) (st, idx) = (st, idx) := by
            simp [fillSlots, hq, fillSlots_stuck recipes idx hq rest st]
          rw [hstep]
          have hnone : recipes[idx + j]? = none :=
            List.getElem?_eq_none (by
              have := List.getElem?_eq_none_iff.1 hq
              omega)
          rw [hnone]
          exact hempty (((d, m) :: rest).get ⟨j, hj⟩) (List.get_mem _ _ _)
      | some r =>
          have hstep : fillSlots recipes ((d, m) :: rest) (st, idx) =
              fillSlots recipes rest ((addMealToPlan st d m r).2, idx + 1) := by
            simp [fillSlots, hq]
          rw [hstep]
          rcases j with _ | j
          · have hd : d ∈ days := hdays (d, m) (by simp)
            obtain ⟨dp, hdp⟩ := objGet_isSome_of_mem_keys (getMealPlan st) d
              (by rw [hkeys]; exact hd)
            have hframe := fillSlots_frame recipes rest
              ((addMealToPlan st d m r).2) (idx + 1) d m hneq
            show planSlot
              (getMealPlan (fillSlots recipes rest
                ((addMealToPlan st d m r).2, idx + 1)).1) d m
              = some (recipes[idx + 0]?)
            rw [hframe, planSlot_addMeal_self st d m r dp hdp]
            simp [hq]
          · have hj' : j < rest.length := by
              simpa using Nat.lt_of_succ_lt_succ hj
            have hkeys' : (getMealPlan (addMealToPlan st d m r).2).map
                (fun x => x.1) = days := by
              rw [keys_addMeal]; exact hkeys
            have hempty' : ∀ x ∈ rest,
                planSlot (getMealPlan (addMealToPlan st d m r).2) x.1 x.2
                  = some none := by
              intro x hx
              rw [planSlot_addMeal_frame st d m r x.1 x.2
                (fun hc => hneq x hx ⟨hc.1.symm, hc.2.symm⟩)]
              exact hempty x (by simp [hx])
            have hdays' : ∀ x ∈ rest, x.1 ∈ days :=
              fun x hx => hdays x (by simp [hx])
            have harith : (idx + 1) + j = idx + (j + 1) := by omega
            have := ih ((addMealToPlan st d m r).2) (idx + 1) hndr hdays'
              hkeys' hempty' j hj'
            rw [harith] at this
            exact this

/-- C6: generateAutoMealPlan first discards the entire prior plan (its
storage effect is independent of the previously stored plan) and then
assigns the recipes to the 21 slots in traversal order (day-major monday
to sunday, meal-minor breakfast, lunch, dinner): the slot at traversal
position j holds `recipes[j]` while recipes remain, and is empty once the
recipe sequence is exhausted. -/
theorem autoGenerate_fills_in_order (stored : Option MealPlan)
    (recipes : List Recipe) :
    slotList.length = 21 ∧
    (∀ (j : Nat) (hj : j < slotList.length),
      planSlot (getMealPlan (generateAutoMealPlan stored recipes))
        (slotList.get ⟨j, hj⟩).1 (slotList.get ⟨j, hj⟩).2
        = some (recipes[j]?)) ∧
    generateAutoMealPlan stored recipes = generateAutoMealPlan none recipes := by
  refine ⟨by decide, ?_, by unfold generateAutoMealPlan clearMealPlan; rfl⟩
  intro j hj
  have h := fillSlots_spec recipes slotList (clearMealPlan stored) 0
    (by decide) (by decide)
    (by decide :
      (getMealPlan (some emptyMealPlan)).map (fun x => x.1) = days)
    (by decide : ∀ s ∈ slotList,
      planSlot (getMealPlan (some emptyMealPlan)) s.1 s.2 = some none)
    j hj
  simpa [generateAutoMealPlan] using h

/-- C6 witness: generating from a single recipe fills monday breakfast
with it, leaves monday lunch empty, and a prior plan does not leak. -/
theorem autoGenerate_fills_in_order_witness :
    planSlot (getMealPlan (generateAutoMealPlan none
        [{ id := 1, extendedIngredients := none }]))
      "monday" "breakfast"
      = some (some { id := 1, extendedIngredients := none }) ∧
    planSlot (getMealPlan (generateAutoMealPlan none
        [{ id := 1, extendedIngredients := none }]))
      "monday" "lunch" = some none := by
  have h0 := (autoGenerate_fills_in_order none
    [{ id := 1, extendedIngredients := none }]).2.1 0 (by decide)
  have h1 := (autoGenerate_fills_in_order none
    [{ id := 1, extendedIngredients := none }]).2.1 1 (by decide)
  exact ⟨by simpa using h0, by simpa using h1⟩

/-- C9: addToShoppingList with a name that case-insensitively equals an
existing item's name is a no-op reporting failure and leaving the list
unchanged; otherwise it appends exactly one new item with the given name
and (nonempty) category, id and creation timestamp set to the current
time, and checked = false. -/
theorem addToShoppingList_duplicate_guard (list : ShoppingList)
    (name : String) (category : Option String) (now : Int) :
    ((∃ i ∈ list, jsToLower i.name = jsToLower name) →
      addToShoppingList list name category now = (false, list)) ∧
    ((∀ i ∈ list, jsToLower i.name ≠ jsToLower name) →
      ∀ c, category = some c → c ≠ "" →
      addToShoppingList list name category now =
        (true, list ++ [{ id := now, name := name, category := c,
                          checked := false, addedAt := now }])) := by
  constructor
  · rintro ⟨i, hi, hlow⟩
    have hany : (list.any
        (fun i => jsToLower i.name == jsToLower name)) = true :=
      List.any_eq_true.2 ⟨i, hi, by simpa using hlow⟩
    simp [addToShoppingList, hany]
  · intro h c hc hcne
    have hany : (list.any
        (fun i => jsToLower i.name == jsToLower name)) = false := by
      rw [List.any_eq_false]
      intro i hi
      simpa using h i hi
    have hcat : jsOrString category "other" = c := by
      subst hc
      simp [jsOrString, hcne]
    simp [addToShoppingList, hany, hcat]

/-- C9 witness: adding Milk to the empty list appends one item; adding
milk afterwards is a no-op reporting failure, so the list stays at
length 1. -/
theorem addToShoppingList_duplicate_guard_witness :
    addToShoppingList [] "Milk" (some "dairy") 5 =
      (true, [{ id := 5, name := "Milk", category := "dairy",
                checked := false, addedAt := 5 }]) ∧
    addToShoppingList
      [{ id := 5, name := "Milk", category := "dairy",
         checked := false, addedAt := 5 }] "milk" (some "dairy") 6 =
      (false, [{ id := 5, name := "Milk", category := "dairy",
                 checked := false, addedAt := 5 }]) := by
  constructor
  · have h := (addToShoppingList_duplicate_guard [] "Milk" (some "dairy")
      5).2 (by simp) "dairy" rfl (by decide)
    simpa using h
  · exact (addToShoppingList_duplicate_guard
      [{ id := 5, name := "Milk", category := "dairy",
         checked := false, addedAt := 5 }] "milk" (some "dairy") 6).1
      ⟨{ id := 5, name := "Milk", category := "dairy",
         checked := false, addedAt := 5 }, by simp, by decide⟩

lemma toggleFirst_append_of_no_match (t : Int) :
    ∀ (l rest : ShoppingList), (∀ i ∈ l, i.id ≠ t) →
      toggleFirst (l ++ rest) t = l ++ toggleFirst rest t := by
  intro l
  induction l with
  | nil => intro rest _; simp
  | cons a l' ih =>
      intro rest h
      have ha : (a.id == t) = false := by
        simpa using h a (by simp)
      simp [toggleFirst, ha]
      exact ih rest (fun i hi => h i (by simp [hi]))

/-- C10: removeFromShoppingList deletes every item whose id equals the
argument (not at most one) and keeps all non-matching items in relative
order; ids are the add-time clock value, so two items added in the same
millisecond share one id, a single remove deletes both, and
toggleShoppingItem flips only the first item with that id. -/
theorem remove_deletes_every_match :
    (∀ (l : ShoppingList) (itemId : Int),
      (∀ i ∈ removeFromShoppingList l itemId, i.id ≠ itemId) ∧
      List.Sublist (removeFromShoppingList l itemId) l ∧
      (∀ i ∈ l, i.id ≠ itemId → i ∈ removeFromShoppingList l itemId)) ∧
    (∀ (l : ShoppingList) (n1 n2 : String) (c1 c2 : Option String) (t : Int),
      (∀ i ∈ l, jsToLower i.name ≠ jsToLower n1) →
      (∀ i ∈ l, jsToLower i.name ≠ jsToLower n2) →
      jsToLower n1 ≠ jsToLower n2 →
      (∀ i ∈ l, i.id ≠ t) →
      (addToShoppingList (addToShoppingList l n1 c1 t).2 n2 c2 t).2 =
        l ++ [{ id := t, name := n1, category := jsOrString c1 "other",
                checked := false, addedAt := t },
              { id := t, name := n2, category := jsOrString c2 "other",
                checked := false, addedAt := t }] ∧
      removeFromShoppingList
        (l ++ [{ id := t, name := n1, category := jsOrString c1 "other",
                 checked := false, addedAt := t },
               { id := t, name := n2, category := jsOrString c2 "other",
                 checked := false, addedAt := t }]) t = l ∧
      toggleShoppingItem
        (l ++ [{ id := t, name := n1, category := jsOrString c1 "other",
                 checked := false, addedAt := t },
               { id := t, name := n2, category := jsOrString c2 "other",
                 checked := false, addedAt := t }]) t =
        (true, l ++ [{ id := t, name := n1, category := jsOrString c1 "other",
                       checked := true, addedAt := t },
                     { id := t, name := n2, category := jsOrString c2 "other",
                       checked := false, addedAt := t }])) := by
  constructor
  · intro l itemId
    refine ⟨?_, List.filter_sublist l, ?_⟩
    · intro i hi
      have := (List.mem_filter.1 hi).2
      simpa using this
    · intro i hi hne
      exact List.mem_filter.2 ⟨hi, by simpa using hne⟩
  · intro l n1 n2 c1 c2 t h1 h2 h3 h4
    have hany1 : (l.any (fun i => jsToLower i.name == jsToLower n1))
        = false := by
      rw [List.any_eq_false]; intro i hi; simpa using h1 i hi
    have e1 : (addToShoppingList l n1 c1 t).2 =
        l ++ [{ id := t, name := n1, category := jsOrString c1 "other",
                checked := false, addedAt := t }] := by
      simp [addToShoppingList, hany1]
    have hany2 : ((l ++ [({ id := t, name := n1,
                            category := jsOrString c1 "other",
                            checked := false,
                            addedAt := t } : ShoppingItem)]).any
          (fun i => jsToLower i.name == jsToLower n2)) = false := by
      rw [List.any_eq_false]
      intro i hi
      rcases List.mem_append.1 hi with hi' | hi'
      · simpa using h2 i hi'
      · simp at hi'
        simp [hi', h3]
    have e2 : (addToShoppingList (addToShoppingList l n1 c1 t).2 n2 c2 t).2 =
        l ++ [{ id := t, name := n1, category := jsOrString c1 "other",
                checked := false, addedAt := t },
              { id := t, name := n2, category := jsOrString c2 "other",
                checked := false, addedAt := t }] := by
      rw [e1]
      simp [addToShoppingList, hany2]
    refine ⟨e2, ?_, ?_⟩
    · have hl : l.filter (fun item => !(item.id == t)) = l :=
        List.filter_eq_self.2 (fun i hi => by simpa using h4 i hi)
      simp [removeFromShoppingList, List.filter_append, hl]
    · have hanyid : ((l ++ [({ id := t, name := n1,
                               category := jsOrString c1 "other",
                               checked := false, addedAt := t } :
                              ShoppingItem),
                            ({ id := t, name := n2,
                               category := jsOrString c2 "other",
                               checked := false, addedAt := t } :
                              ShoppingItem)]).any
            (fun i => i.id == t)) = true := by
        rw [List.any_eq_true]
        exact ⟨{ id := t, name := n1, category := jsOrString c1 "other",
                 checked := false, addedAt := t },
          by simp, by simp⟩
      rw [toggleShoppingItem, hanyid]
      rw [toggleFirst_append_of_no_match t l _ h4]
      simp [toggleFirst]

/-- C10 witness: Milk and Eggs added in the same millisecond share id 5:
one remove deletes both; toggle flips only Milk. -/
theorem remove_deletes_every_match_witness :
    (addToShoppingList (addToShoppingList [] "Milk" (some "dairy") 5).2
        "Eggs" (some "dairy") 5).2 =
      [{ id := 5, name := "Milk", category := "dairy",
         checked := false, addedAt := 5 },
       { id := 5, name := "Eggs", category := "dairy",
         checked := false, addedAt := 5 }] ∧
    removeFromShoppingList
      [{ id := 5, name := "Milk", category := "dairy",
         checked := false, addedAt := 5 },
       { id := 5, name := "Eggs", category := "dairy",
         checked := false, addedAt := 5 }] 5 = [] ∧
    toggleShoppingItem
      [{ id := 5, name := "Milk", category := "dairy",
         checked := false, addedAt := 5 },
       { id := 5, name := "Eggs", category := "dairy",
         checked := false, addedAt := 5 }] 5 =
      (true, [{ id := 5, name := "Milk", category := "dairy",
                checked := true, addedAt := 5 },
              { id := 5, name := "Eggs", category := "dairy",
                checked := false, addedAt := 5 }]) := by
  have h := remove_deletes_every_match.2 [] "Milk" "Eggs"
    (some "dairy") (some "dairy") 5 (by simp) (by simp) (by decide) (by simp)
  refine ⟨by simpa using h.1, by simpa using h.2.1, by simpa using h.2.2⟩

/-- C3 counterexample: the stored shopping item does not retain the
aggregated amount and unit — committing two aggregates that differ only
in amount and unit stores identical lists, because `addToShoppingList`
reads only `name` and `category`. -/
theorem commit_drops_amount_unit_counterexample :
    ({ name := "flour", category := "grains", amount := 350, unit := "g",
       checked := false } : AggregatedIngredient) ≠
      { name := "flour", category := "grains", amount := 999, unit := "kg",
        checked := false } ∧
    commitGeneratedItems
      [{ name := "flour", category := "grains", amount := 350, unit := "g",
         checked := false }] 5 =
      commitGeneratedItems
        [{ name := "flour", category := "grains", amount := 999,
           unit := "kg", checked := false }] 5 := by
  decide

lemma commit_foldl_mem (now : Int) :
    ∀ (items : List AggregatedIngredient) (acc : ShoppingList),
      ∀ s ∈ items.foldl
        (fun l item =>
          (addToShoppingList l item.name (some item.category) now).2) acc,
      s ∈ acc ∨
        (s.checked = false ∧ s.id = now ∧ s.addedAt = now ∧
          ∃ it ∈ items, s.name = it.name ∧
            s.category = jsOrString (some it.category) "other") := by
  intro items
  induction items with
  | nil => intro acc s hs; exact Or.inl hs
  | cons it rest ih =>
      intro acc s hs
      have hs' := ih ((addToShoppingList acc it.name (some it.category) now).2)
        s (by simpa using hs)
      rcases hs' with hs' | hs'
      · cases hq : acc.any
          (fun i => jsToLower i.name == jsToLower it.name) with
        | true =>
            rw [addToShoppingList, hq] at hs'
            exact Or.inl hs'
        | false =>
            rw [addToShoppingList, hq] at hs'
            simp at hs'
            rcases hs' with hs' | hs'
            · exact Or.inl hs'
            · refine Or.inr ⟨by simp [hs'], by simp [hs'], by simp [hs'],
                it, by simp, by simp [hs'], by simp [hs']⟩
      · obtain ⟨hc, hid, hat, it', hit', hn, hcat⟩ := hs'
        exact Or.inr ⟨hc, hid, hat, it', by simp [hit'], hn, hcat⟩

/-- C3 (amended): each committed AggregatedIngredient is written into the
Shopping List Store as a ShoppingItem carrying only its name and its
category (a falsy category defaults to `"other"`), with checked = false
and a fresh id and timestamp; the summed amount and the unit are dropped
by the add path and are not persisted. -/
theorem commit_stores_name_category (items : List AggregatedIngredient)
    (now : Int) :
    ∀ s ∈ commitGeneratedItems items now,
      s.checked = false ∧ s.id = now ∧ s.addedAt = now ∧
      ∃ it ∈ items, s.name = it.name ∧
        s.category = jsOrString (some it.category) "other" := by
  intro s hs
  rcases commit_foldl_mem now items [] s hs with h | h
  · simp at h
  · exact h

/-- C3 witness: the committed flour aggregate is stored with its name,
category, checked = false, and the commit-time id and timestamp. -/
theorem commit_stores_name_category_witness :
    ({ id := 5, name := "flour", category := "grains", checked := false,
       addedAt := 5 } : ShoppingItem).checked = false ∧
    ({ id := 5, name := "flour", category := "grains", checked := false,
       addedAt := 5 } : ShoppingItem).id = 5 ∧
    ({ id := 5, name := "flour", category := "grains", checked := false,
       addedAt := 5 } : ShoppingItem).addedAt = 5 ∧
    ∃ it ∈ [({ name := "flour", category := "grains", amount := 350,
               unit := "g", checked := false } : AggregatedIngredient)],
      ({ id := 5, name := "flour", category := "grains", checked := false,
         addedAt := 5 } : ShoppingItem).name = it.name ∧
      ({ id := 5, name := "flour", category := "grains", checked := false,
         addedAt := 5 } : ShoppingItem).category =
        jsOrString (some it.category) "other" :=
  commit_stores_name_category
    [{ name := "flour", category := "grains", amount := 350, unit := "g",
       checked := false }] 5
    { id := 5, name := "flour", category := "grains", checked := false,
      addedAt := 5 } (by decide)

lemma foldl_ingredients (ms : List (String × String × Recipe)) :
    ∀ acc, ms.foldl
        (fun acc meal =>
          match meal.2.2.extendedIngredients with
          | some ings => ings.foldl insertIngredient acc
          | none => acc) acc =
      (ms.flatMap (fun meal => meal.2.2.extendedIngredients.getD [])).foldl
        insertIngredient acc := by
  induction ms with
  | nil => intro acc; rfl
  | cons meal rest ih =>
      intro acc
      cases hi : meal.2.2.extendedIngredients with
      | some ings =>
          simp only [List.foldl_cons, List.flatMap_cons, hi, Option.getD_some,
            List.foldl_append]
          exact ih _
      | none =>
          simp only [List.foldl_cons, List.flatMap_cons, hi, Option.getD_none,
            List.nil_append, List.foldl_nil]
          exact ih _

lemma generate_eq_foldl (stored : Option MealPlan) :
    generateShoppingListFromMealPlan stored =
      (planIngredients stored).foldl insertIngredient [] :=
  foldl_ingredients (getAllMealsFromPlan stored) []

lemma find?_name_map (g : AggregatedIngredient → AggregatedIngredient)
    (q : AggregatedIngredient → Bool) (hq : ∀ e, q (g e) = q e) :
    ∀ (xs : List AggregatedIngredient),
      (xs.map g).find? q = (xs.find? q).map g := by
  intro xs
  induction xs with
  | nil => simp
  | cons a l ih =>
      simp only [List.map_cons, List.find?_cons, hq a]
      cases hp : q a with
      | true => simp
      | false => simpa using ih

lemma entryFor_insert (acc : List AggregatedIngredient)
    (ingredient : Ingredient) (n : String) :
    entryFor (insertIngredient acc ingredient) n =
      if ingredient.name == n then
        match entryFor acc n with
        | some e => some { e with amount := e.amount + jsAmount ingredient }
        | none => some (newEntry ingredient)
      else entryFor acc n := by
  simp only [entryFor]
  cases hany : acc.any (fun e => e.name == ingredient.name) with
  | true =>
      rw [show insertIngredient acc ingredient = acc.map (fun e =>
        if e.name == ingredient.name then
          { e with amount := e.amount + jsAmount ingredient }
        else e) from by simp [insertIngredient, hany]]
      rw [find?_name_map _ (fun e => e.name == n) (fun e => by
        show ((if e.name == ingredient.name then
            { e with amount := e.amount + jsAmount ingredient }
          else e).name == n) = (e.name == n)
        split <;> rfl)]
      cases hn : ingredient.name == n with
      | true =>
          have hn2 : ingredient.name = n := by simpa using hn
          cases hfind : acc.find? (fun e => e.name == n) with
          | none =>
              exfalso
              obtain ⟨e0, he0, hname0⟩ := List.any_eq_true.1 hany
              have hno := List.find?_eq_none.1 hfind e0 he0
              have he0n : e0.name = ingredient.name := by simpa using hname0
              exact hno (by simp [he0n, hn2])
          | some e =>
              have hpe := List.find?_some hfind
              have he : e.name = ingredient.name := by
                have h1 : e.name = n := by simpa using hpe
                simp [h1, hn2]
              simp [hfind, he]
      | false =>
          cases hfind : acc.find? (fun e => e.name == n) with
          | none => simp [hfind]
          | some e =>
              have hpe := List.find?_some hfind
              have he : ¬(e.name = ingredient.name) := by
                have h1 : e.name = n := by simpa using hpe
                have h2 : ingredient.name ≠ n := by simpa using hn
                simp [h1]
                exact fun hc => h2 hc.symm
              simp [hfind, he]
  | false =>
      rw [show insertIngredient acc ingredient = acc ++ [newEntry ingredient]
        from by simp [insertIngredient, hany]]
      rw [List.find?_append]
      cases hn : ingredient.name == n with
      | true =>
          have hn2 : ingredient.name = n := by simpa using hn
          have hnone : acc.find? (fun e => e.name == n) = none := by
            rw [List.find?_eq_none]
            intro e he
            have := List.any_eq_false.1 hany e he
            simpa [hn2] using this
          rw [hnone]
          simp [List.find?_cons, newEntry, hn]
      | false =>
          have hnew : ([newEntry ingredient].find? (fun e => e.name == n))
              = none := by
            simp [List.find?_cons, newEntry, hn]
          rw [hnew]
          cases hfind : acc.find? (fun e => e.name == n) with
          | none => simp [hfind]
          | some e => simp [hfind]

lemma entryFor_foldl :
    ∀ (l : List Ingredient) (acc : List AggregatedIngredient) (n : String),
      entryFor (l.foldl insertIngredient acc) n =
        match entryFor acc n with
        | some e => some { e with amount := e.amount + amountOf l n }
        | none => (firstWith l n).map
            (fun i => { newEntry i with amount := amountOf l n }) := by
  intro l
  induction l with
  | nil =>
      intro acc n
      cases hfind : entryFor acc n with
      | some e => simp [hfind, amountOf]
      | none => simp [hfind, amountOf, firstWith]
  | cons i l' ih =>
      intro acc n
      show entryFor (l'.foldl insertIngredient (insertIngredient acc i)) n = _
      rw [ih (insertIngredient acc i) n, entryFor_insert]
      cases hn : i.name == n with
      | true =>
          have ha : amountOf (i :: l') n = jsAmount i + amountOf l' n := by
            simp [amountOf, List.filter_cons, hn]
          have hf : firstWith (i :: l') n = some i := by
            simp [firstWith, List.find?_cons, hn]
          cases hfind : entryFor acc n with
          | some e => simp [hfind, ha, Int.add_assoc]
          | none => simp [hfind, ha, hf, newEntry]
      | false =>
          have ha : amountOf (i :: l') n = amountOf l' n := by
            simp [amountOf, List.filter_cons, hn]
          have hf : firstWith (i :: l') n = firstWith l' n := by
            simp [firstWith, List.find?_cons, hn]
          simp [ha, hf]

lemma names_insert (acc : List AggregatedIngredient)
    (ingredient : Ingredient) :
    (insertIngredient acc ingredient).map (fun e => e.name) =
      if acc.any (fun e => e.name == ingredient.name) then
        acc.map (fun e => e.name)
      else acc.map (fun e => e.name) ++ [ingredient.name] := by
  cases hany : acc.any (fun e => e.name == ingredient.name) with
  | true =>
      rw [show insertIngredient acc ingredient = acc.map (fun e =>
        if e.name == ingredient.name then
          { e with amount := e.amount + jsAmount ingredient }
        else e) from by simp [insertIngredient, hany]]
      simp only [if_true, List.map_map]
      refine List.map_congr_left ?_
      intro e _
      show (if e.name == ingredient.name then
          { e with amount := e.amount + jsAmount ingredient }
        else e).name = e.name
      split <;> rfl
  | false =>
      rw [show insertIngredient acc ingredient = acc ++ [newEntry ingredient]
        from by simp [insertIngredient, hany]]
      simp [newEntry]

lemma addNames_cons (ns : List String) (m : String) (ms : List String) :
    addNames ns (m :: ms) =
      addNames (if ns.any (fun y => y == m) then ns else ns ++ [m]) ms := by
  simp [addNames]

lemma names_foldl :
    ∀ (l : List Ingredient) (acc : List AggregatedIngredient),
      (l.foldl insertIngredient acc).map (fun e => e.name) =
        addNames (acc.map (fun e => e.name)) (l.map (fun i => i.name)) := by
  intro l
  induction l with
  | nil => intro acc; simp [addNames]
  | cons i l' ih =>
      intro acc
      show (l'.foldl insertIngredient (insertIngredient acc i)).map _ = _
      rw [ih (insertIngredient acc i), names_insert]
      rw [List.map_cons, addNames_cons]
      have hcond : ∀ (xs : List AggregatedIngredient),
          ((xs.map (fun e => e.name)).any (fun y => y == i.name))
          = xs.any (fun e => e.name == i.name) := by
        intro xs
        induction xs with
        | nil => rfl
        | cons a l ihh => simp [List.any_cons, ihh]
      rw [hcond]

lemma mem_addNames :
    ∀ (ms ns : List String) (x : String),
      x ∈ addNames ns ms ↔ x ∈ ns ∨ x ∈ ms := by
  intro ms
  induction ms with
  | nil => intro ns x; simp [addNames]
  | cons m ms2 ih =>
      intro ns x
      rw [addNames_cons]
      cases hany : ns.any (fun y => y == m) with
      | true =>
          have hm : m ∈ ns := by
            obtain ⟨y, hy, hy2⟩ := List.any_eq_true.1 hany
            have : y = m := by simpa using hy2
            rwa [this] at hy
          simp only [if_true]
          rw [ih ns x]
          constructor
          · rintro (h | h)
            · exact Or.inl h
            · exact Or.inr (List.mem_cons_of_mem _ h)
          · rintro (h | h)
            · exact Or.inl h
            · rcases List.mem_cons.1 h with rfl | h2
              · exact Or.inl hm
              · exact Or.inr h2
      | false =>
          simp only [Bool.false_eq_true, if_false]
          rw [ih (ns ++ [m]) x]
          simp [List.mem_append, List.mem_cons, or_assoc]

lemma addNames_nodup :
    ∀ (ms ns : List String), ns.Nodup → (addNames ns ms).Nodup := by
  intro ms
  induction ms with
  | nil => intro ns h; simpa [addNames] using h
  | cons m ms2 ih =>
      intro ns h
      rw [addNames_cons]
      cases hany : ns.any (fun y => y == m) with
      | true =>
          simp only [if_true]
          exact ih ns h
      | false =>
          have hm : m ∉ ns := by
            intro hmem
            have := List.any_eq_false.1 hany m hmem
            simp at this
          simp only [Bool.false_eq_true, if_false]
          refine ih (ns ++ [m]) ?_
          rw [List.nodup_append]
          exact ⟨h, by simp, fun a ha hb => by
            simp at hb
            subst hb
            exact hm ha⟩

lemma entryFor_self_of_nodup :
    ∀ (xs : List AggregatedIngredient),
      ((xs.map (fun e => e.name)).Nodup) →
      ∀ e ∈ xs, entryFor xs e.name = some e := by
  intro xs
  induction xs with
  | nil => intro _ e he; simp at he
  | cons a l ih =>
      intro hnd e he
      have hnd2 : (a.name :: l.map (fun e => e.name)).Nodup := by
        simpa using hnd
      rcases List.mem_cons.1 he with rfl | he2
      · simp [entryFor, List.find?_cons]
      · have hna : (a.name == e.name) = false := by
          have hmem : e.name ∈ l.map (fun e => e.name) :=
            List.mem_map.2 ⟨e, he2, rfl⟩
          have hnotin := (List.nodup_cons.1 hnd2).1
          have hne : a.name ≠ e.name := by
            intro hc
            rw [hc] at hnotin
            exact hnotin hmem
          simpa using hne
        rw [entryFor, List.find?_cons, hna]
        exact ih (List.nodup_cons.1 hnd2).2 e he2

/-- C1: generateShoppingListFromMealPlan merges ingredients by exact
(case-sensitive) name: the output names are pairwise distinct, a name
appears in the output exactly when some traversed ingredient bears it
(so `"flour"` and `"Flour"` give separate entries), each entry's amount
is the sum of `amount || 0` over all traversed ingredients with exactly
that name (an absent amount contributes 0), and its unit and category are
those computed from the first-seen ingredient of that name — only the
amount accumulates on a merge. -/
theorem generate_merges_by_exact_name (stored : Option MealPlan) :
    ((generateShoppingListFromMealPlan stored).map (fun e => e.name)).Nodup ∧
    (∀ n : String,
      (∃ e ∈ generateShoppingListFromMealPlan stored, e.name = n) ↔
      (∃ i ∈ planIngredients stored, i.name = n)) ∧
    (∀ e ∈ generateShoppingListFromMealPlan stored,
      e.checked = false ∧
      e.amount = amountOf (planIngredients stored) e.name ∧
      ∃ i, firstWith (planIngredients stored) e.name = some i ∧
        e.unit = jsOrString i.unit "" ∧
        e.category = categorizeIngredient
          (some (jsOrString i.aisle i.name))) := by
  have hgen := generate_eq_foldl stored
  have hnames : (generateShoppingListFromMealPlan stored).map
      (fun e => e.name) =
      addNames [] ((planIngredients stored).map (fun i => i.name)) := by
    rw [hgen]
    simpa using names_foldl (planIngredients stored) []
  have hnd : ((generateShoppingListFromMealPlan stored).map
      (fun e => e.name)).Nodup := by
    rw [hnames]
    exact addNames_nodup _ [] (by simp)
  refine ⟨hnd, ?_, ?_⟩
  · intro n
    constructor
    · rintro ⟨e, he, rfl⟩
      have hmem : e.name ∈ (generateShoppingListFromMealPlan stored).map
          (fun e => e.name) := List.mem_map.2 ⟨e, he, rfl⟩
      rw [hnames] at hmem
      rcases (mem_addNames _ [] e.name).1 hmem with h | h
      · simp at h
      · obtain ⟨i, hi, hiname⟩ := List.mem_map.1 h
        exact ⟨i, hi, hiname⟩
    · rintro ⟨i, hi, rfl⟩
      have hmem : i.name ∈ (generateShoppingListFromMealPlan stored).map
          (fun e => e.name) := by
        rw [hnames]
        exact (mem_addNames _ [] i.name).2
          (Or.inr (List.mem_map.2 ⟨i, hi, rfl⟩))
      obtain ⟨e, he, hename⟩ := List.mem_map.1 hmem
      exact ⟨e, he, hename⟩
  · intro e he
    have hfind : entryFor (generateShoppingListFromMealPlan stored) e.name
        = some e := entryFor_self_of_nodup _ hnd e he
    rw [hgen, entryFor_foldl] at hfind
    have hempty : entryFor ([] : List AggregatedIngredient) e.name = none := by
      simp [entryFor]
    rw [hempty] at hfind
    cases hfw : firstWith (planIngredients stored) e.name with
    | none =>
        rw [hfw] at hfind
        simp at hfind
    | some i =>
        rw [hfw] at hfind
        have h3 : some ({ newEntry i with
            amount := amountOf (planIngredients stored) e.name }) = some e :=
          hfind
        have he2 := Option.some.inj h3
        have hfw2 : List.find? (fun j => j.name == e.name)
            (planIngredients stored) = some i := by
          simpa [firstWith] using hfw
        have hin := List.find?_some hfw2
        have hin2 : i.name = e.name := by simpa using hin
        refine ⟨?_, ?_, i, rfl, ?_, ?_⟩
        · rw [← he2]; rfl
        · rw [← he2]
          show amountOf (planIngredients stored) e.name
            = amountOf (planIngredients stored) i.name
          rw [hin2]
        · rw [← he2]; rfl
        · rw [← he2]; rfl

/-- C1 witness: in the flour scenario (monday slots holding flour 200,
flour 150, Flour 100) the single lowercase flour entry carries the summed
amount 350 and checked = false. -/
theorem generate_merges_by_exact_name_witness :
    ({ name := "flour", category := "other", amount := 350, unit := "g",
       checked := false } : AggregatedIngredient).checked = false ∧
    ({ name := "flour", category := "other", amount := 350, unit := "g",
       checked := false } : AggregatedIngredient).amount
      = amountOf (planIngredients flourPlan) "flour" := by
  have h := (generate_merges_by_exact_name flourPlan).2.2
    { name := "flour", category := "other", amount := 350, unit := "g",
      checked := false } (by decide)
  exact ⟨h.1, by simpa using h.2.1⟩

lemma flatMap_congr_mem {α β : Type} (l : List α) (f g : α → List β)
    (h : ∀ a ∈ l, f a = g a) : l.flatMap f = l.flatMap g := by
  induction l with
  | nil => rfl
  | cons a l2 ih =>
      simp only [List.flatMap_cons, h a (by simp),
        ih (fun a ha => h a (by simp [ha]))]

lemma objGet_self_of_mem_nodup {α : Type} (o : List (String × α))
    (hnd : (o.map (fun p => p.1)).Nodup) (x : String × α) (hx : x ∈ o) :
    objGet o x.1 = some x.2 := by
  induction o with
  | nil => simp at hx
  | cons p rest ih =>
      have hnd2 : (p.1 :: rest.map (fun p => p.1)).Nodup := by simpa using hnd
      rcases List.mem_cons.1 hx with rfl | hx2
      · simp [objGet, List.find?_cons]
      · have hp : (p.1 == x.1) = false := by
          have hxm : x.1 ∈ rest.map (fun p => p.1) :=
            List.mem_map.2 ⟨x, hx2, rfl⟩
          have hnotin := (List.nodup_cons.1 hnd2).1
          have : p.1 ≠ x.1 := by
            intro hc
            rw [hc] at hnotin
            exact hnotin hxm
          simpa using this
        rw [objGet, List.find?_cons, hp]
        exact ih (List.nodup_cons.1 hnd2).2 hx2

lemma flatMap_keys_lookup {α β : Type} (o : List (String × α))
    (hnd : (o.map (fun p => p.1)).Nodup) (h : Option α → List β) :
    (o.map (fun p => p.1)).flatMap (fun k => h (objGet o k))
      = o.flatMap (fun p => h (some p.2)) := by
  rw [List.flatMap_map]
  refine flatMap_congr_mem o _ _ ?_
  intro p hp
  rw [objGet_self_of_mem_nodup o hnd p hp]

lemma dayMeals_flatMap (day : String) :
    ∀ (dp : DayPlan),
      ((dp.filterMap (fun m => m.2.map (fun r => (day, m.1, r)))).flatMap
        (fun meal => meal.2.2.extendedIngredients.getD []))
      = dp.flatMap (fun s => optIngredients s.2) := by
  intro dp
  induction dp with
  | nil => rfl
  | cons s rest ih =>
      obtain ⟨m, v⟩ := s
      cases v with
      | none => simpa [List.filterMap_cons, optIngredients] using ih
      | some r =>
          simpa [List.filterMap_cons, List.flatMap_cons, optIngredients]
            using ih

lemma planIngredients_eq_traversal (p : MealPlan)
    (hwf : wellFormedPlan p = true) :
    planIngredients (some p) = traversalIngredients p := by
  obtain ⟨hk, hv⟩ := (wellFormedPlan_iff p).1 hwf
  have hdaysnd : (p.map (fun d => d.1)).Nodup := by rw [hk]; decide
  have hL : planIngredients (some p) =
      p.flatMap (fun d => d.2.flatMap (fun s => optIngredients s.2)) := by
    show ((p.flatMap (fun d =>
        d.2.filterMap (fun m => m.2.map (fun r => (d.1, m.1, r))))).flatMap
      (fun meal => meal.2.2.extendedIngredients.getD [])) = _
    rw [List.flatMap_assoc]
    exact flatMap_congr_mem p _ _ (fun d _ => dayMeals_flatMap d.1 d.2)
  have hR : traversalIngredients p =
      p.flatMap (fun d => d.2.flatMap (fun s => optIngredients s.2)) := by
    show ((days.flatMap (fun d => mealTypes.map (fun m => (d, m)))).flatMap
      (fun s => slotIngredients (planSlot p s.1 s.2))) = _
    rw [List.flatMap_assoc, ← hk, List.flatMap_map]
    refine flatMap_congr_mem p _ _ ?_
    intro d hd
    have hgd : objGet p d.1 = some d.2 :=
      objGet_self_of_mem_nodup p hdaysnd d hd
    have hF : ((mealTypes.map (fun m => (d.1, m))).flatMap
          (fun s => slotIngredients (planSlot p s.1 s.2)))
        = mealTypes.flatMap
            (fun m => slotIngredients (objGet d.2 m)) := by
      rw [List.flatMap_map]
      refine flatMap_congr_mem mealTypes _ _ ?_
      intro m2 _
      rw [show planSlot p d.1 m2 = objGet d.2 m2 from by
        rw [planSlot, hgd]; rfl]
    rw [hF]
    have hdnd : (d.2.map (fun s => s.1)).Nodup := by
      rw [hv d hd]; decide
    rw [show mealTypes = d.2.map (fun s => s.1) from (hv d hd).symm]
    rw [flatMap_keys_lookup d.2 hdnd slotIngredients]
    exact flatMap_congr_mem d.2 _ _ (fun s _ => rfl)
  rw [hL, hR]

lemma addNames_append_firstOcc :
    ∀ (k : Nat) (ns : List String), ns.length ≤ k →
      ∀ acc, addNames acc ns =
        acc ++ firstOccurrences
          (ns.filter (fun n => !(acc.any (fun y => y == n)))) := by
  intro k
  induction k with
  | zero =>
      intro ns hlen acc
      have hnil : ns = [] := List.eq_nil_of_length_eq_zero (Nat.le_zero.1 hlen)
      subst hnil
      simp [addNames, firstOccurrences]
  | succ k ih =>
      intro ns hlen acc
      cases ns with
      | nil => simp [addNames, firstOccurrences]
      | cons n rest =>
          rw [addNames_cons]
          cases hany : acc.any (fun y => y == n) with
          | true =>
              simp only [if_true]
              rw [ih rest (by simpa using Nat.le_of_succ_le_succ hlen) acc]
              have hfl : ((n :: rest).filter
                  (fun m => !(acc.any (fun y => y == m)))) =
                  rest.filter (fun m => !(acc.any (fun y => y == m))) := by
                simp [List.filter_cons, hany]
              rw [hfl]
          | false =>
              simp only [Bool.false_eq_true, if_false]
              rw [ih rest (by simpa using Nat.le_of_succ_le_succ hlen)
                (acc ++ [n])]
              have hfo : firstOccurrences ((n :: rest).filter
                  (fun m => !(acc.any (fun y => y == m)))) =
                  n :: firstOccurrences
                    ((rest.filter (fun m => !(acc.any (fun y => y == m)))).filter
                      (fun m => !(m == n))) := by
                simp [List.filter_cons, hany, firstOccurrences]
              rw [hfo]
              rw [show (acc ++ [n]) ++ firstOccurrences
                  ((rest.filter (fun m =>
                    !((acc ++ [n]).any (fun y => y == m)))))
                = acc ++ (n :: firstOccurrences
                  ((rest.filter (fun m =>
                    !((acc ++ [n]).any (fun y => y == m)))))) from by
                simp]
              have hff : rest.filter (fun m =>
                  !((acc ++ [n]).any (fun y => y == m)))
                  = (rest.filter (fun m =>
                      !(acc.any (fun y => y == m)))).filter
                    (fun m => !(m == n)) := by
                rw [List.filter_filter]
                refine (List.filter_congr ?_).symm
                intro m _
                have hsym : (n == m) = (m == n) := by
                  by_cases hnm : n = m
                  · simp [hnm]
                  · have h2 : ¬(m = n) := fun hc => hnm hc.symm
                    simp [hnm, h2]
                simp [List.any_append, hsym, Bool.not_or, Bool.and_comm]
              rw [hff]

lemma addNames_nil_firstOcc (ns : List String) :
    addNames [] ns = firstOccurrences ns := by
  have h := addNames_append_firstOcc ns.length ns (Nat.le_refl _) []
  simpa using h

/-- C5: the aggregation input stream equals the day-major (monday to
sunday), meal-minor (breakfast, lunch, dinner) slot traversal — empty
slots and recipes without an ingredient list contribute nothing, and each
recipe's ingredients keep their listed order — and the output sequence's
names are exactly the first occurrences of that stream's names in
first-encountered order. -/
theorem generate_order (p : MealPlan) (hwf : wellFormedPlan p = true) :
    planIngredients (some p) = traversalIngredients p ∧
    (generateShoppingListFromMealPlan (some p)).map (fun e => e.name)
      = firstOccurrences
          ((traversalIngredients p).map (fun i => i.name)) := by
  have htrav := planIngredients_eq_traversal p hwf
  refine ⟨htrav, ?_⟩
  rw [generate_eq_foldl (some p)]
  have h := names_foldl (planIngredients (some p)) []
  simpa [htrav, addNames_nil_firstOcc] using h

/-- C5 witness: the order theorem applied to the concrete flour plan. -/
theorem generate_order_witness :
    planIngredients (some (getMealPlan flourPlan)) =
      traversalIngredients (getMealPlan flourPlan) ∧
    (generateShoppingListFromMealPlan
        (some (getMealPlan flourPlan))).map (fun e => e.name)
      = firstOccurrences
          ((traversalIngredients (getMealPlan flourPlan)).map
            (fun i => i.name)) :=
  generate_order (getMealPlan flourPlan) (by decide)
